import Mathlib

/-!
Verification of the rpipe command-line stream-processing tool.

Strings are modelled as Lean `String`s (a record's text), with Rust's
`chars()` corresponding to `String.data`.  Machine integers (`i64`) are
modelled as `Int` with explicit range checks where the source checks them.
Floating-point values appearing in the sources are modelled exactly: every
float relevant to the claims is a finite decimal, represented as the exact
value `num / 10 ^ denPow` (the `Dec` type below), and non-finite values are
rejected exactly where the code rejects them.
-/

set_option maxRecDepth 8192
set_option exponentiation.threshold 2000

namespace Rpipe

/-! ## Numeric unifier `Num`

Modelled from the spec: the `Num` type and its `FromStr` implementation are
not under `src/` (only their users — `condition.rs`, `op/mod.rs` — are).
The spec says: "parses text into either an integer or a finite floating
value, rejects non-finite forms (`NaN`, `inf`) for comparisons, supports
ordering and summation across mixed integer/float operands" and "ordering
and equality are value-based across variants".
-/

/-- Numeric value of a list of decimal digit characters. -/
def digitsVal (ds : List Char) : Nat :=
  ds.foldl (fun a c => a * 10 + (c.toNat - 48)) 0

/-- Rust `<i64 as FromStr>::from_str`: optional sign, one or more digits,
the whole string consumed, value within the `i64` range. -/
def parseI64 (s : String) : Option Int :=
  let cs := s.data
  let signRest : Int × List Char :=
    match cs with
    | '+' :: r => (1, r)
    | '-' :: r => (-1, r)
    | _ => (1, cs)
  let sign := signRest.1
  let rest := signRest.2
  if rest ≠ [] ∧ rest.all Char.isDigit then
    let v : Int := sign * (digitsVal rest : Int)
    if -(2 ^ 63) ≤ v ∧ v ≤ 2 ^ 63 - 1 then some v else none
  else none

/-- An exact finite decimal value `num / 10 ^ denPow`; the image of the
finite floats the claims touch.  Comparisons are by value (cross
multiplication), so they are plain integer arithmetic. -/
structure Dec where
  num : Int
  denPow : Nat
  deriving Repr, DecidableEq

/-- Value-based `≤` on decimals: `a.num / 10^a.denPow ≤ b.num / 10^b.denPow`. -/
def Dec.le (a b : Dec) : Bool :=
  decide (a.num * (10 : Int) ^ b.denPow ≤ b.num * (10 : Int) ^ a.denPow)

/-- Value-based `<` on decimals. -/
def Dec.lt (a b : Dec) : Bool :=
  decide (a.num * (10 : Int) ^ b.denPow < b.num * (10 : Int) ^ a.denPow)

/-- Value-based equality on decimals. -/
def Dec.beq (a b : Dec) : Bool :=
  decide (a.num * (10 : Int) ^ b.denPow = b.num * (10 : Int) ^ a.denPow)

/-- Scale a decimal by `10 ^ e` for an integer exponent `e`. -/
def Dec.scalePow10 (d : Dec) (e : Int) : Dec :=
  if 0 ≤ e then { d with num := d.num * (10 : Int) ^ e.toNat }
  else { d with denPow := d.denPow + (-e).toNat }

/-- Optional exponent suffix `[eE][+-]?digits` of a float literal; an empty
tail means exponent `0`; anything else is a parse failure. -/
def parseExpTail (cs : List Char) : Option Int :=
  match cs with
  | [] => some 0
  | c :: rest =>
    if c = 'e' ∨ c = 'E' then
      let signRest : Int × List Char :=
        match rest with
        | '+' :: r => (1, r)
        | '-' :: r => (-1, r)
        | _ => (1, rest)
      if signRest.2 ≠ [] ∧ signRest.2.all Char.isDigit then
        some (signRest.1 * (digitsVal signRest.2 : Int))
      else none
    else none

/-- Modelled from the spec: parsing a *finite* float.  Accepts
`[+-]? (digits [. digits?] | . digits | digits? . digits) ([eE][+-]?digits)?`
and yields its exact decimal value; non-finite literals (`inf`, `NaN`) are
rejected, per the spec's "rejects non-finite forms". -/
def parseFiniteFloat (s : String) : Option Dec :=
  let cs := s.data
  let signRest : Int × List Char :=
    match cs with
    | '+' :: r => (1, r)
    | '-' :: r => (-1, r)
    | _ => (1, cs)
  let sign := signRest.1
  let rest := signRest.2
  let ds1 := rest.takeWhile Char.isDigit
  let rest1 := rest.dropWhile Char.isDigit
  match rest1 with
  | '.' :: rest2 =>
    let ds2 := rest2.takeWhile Char.isDigit
    let rest3 := rest2.dropWhile Char.isDigit
    if ds1 = [] ∧ ds2 = [] then none
    else
      (parseExpTail rest3).map fun e =>
        Dec.scalePow10
          { num := sign * ((digitsVal ds1 : Int) * (10 : Int) ^ ds2.length + (digitsVal ds2 : Int)),
            denPow := ds2.length } e
  | _ =>
    if ds1 = [] then none
    else (parseExpTail rest1).map fun e =>
      Dec.scalePow10 { num := sign * (digitsVal ds1 : Int), denPow := 0 } e

/-- Modelled from the spec: `Num` is the sum type `{Integer, Float}`. -/
inductive Num where
  | int (i : Int)
  | float (d : Dec)
  deriving Repr, DecidableEq

/-- Value of a `Num` as an exact decimal; used for the spec's value-based
cross-variant ordering and equality. -/
def Num.toDec : Num → Dec
  | .int i => { num := i, denPow := 0 }
  | .float d => d

/-- Value-based ordering across variants. -/
def Num.le (a b : Num) : Bool := Dec.le a.toDec b.toDec

/-- Value-based equality across variants. -/
def Num.beq (a b : Num) : Bool := Dec.beq a.toDec b.toDec

/-- Embeds `str::parse::<Num>()`: integer first, then finite float
(spec: the `float` qualifier means "fails as Integer AND parses as finite
Float"). -/
def numParse (s : String) : Option Num :=
  match parseI64 s with
  | some i => some (.int i)
  | none => (parseFiniteFloat s).map .float

/-! ## Condition engine (`src/src/condition.rs`)

`Select` is embedded without its `RegMatch` variant: the regex engine is an
external crate and no claim touches that arm.  All other arms follow
`Select::select` line by line. -/

/-- Rust `char::is_whitespace` (Unicode `White_Space` property). -/
def rustIsWhitespace (c : Char) : Bool :=
  let n := c.toNat
  (9 ≤ n ∧ n ≤ 13) ∨ n = 32 ∨ n = 0x85 ∨ n = 0xA0 ∨ n = 0x1680 ∨
  (0x2000 ≤ n ∧ n ≤ 0x200A) ∨ n = 0x2028 ∨ n = 0x2029 ∨ n = 0x202F ∨
  n = 0x205F ∨ n = 0x3000

inductive Select where
  | textLenRange (min max : Option Nat)
  | textLenSpec (spec : Nat)
  | numRange (min max : Option Num)
  | numSpec (spec : Num)
  | num (integer : Option Bool)
  | textAllCase (upper : Bool)
  | ascii (ascii : Bool)
  | textEmptyOrBlank (empty : Bool)

/-- Embeds `Select::select` from `condition.rs` (lines 140-185). -/
def Select.select (sel : Select) (input : String) : Bool :=
  match sel with
  | .textLenRange min max =>
    let len := input.data.length
    (min.all fun minLen => decide (minLen ≤ len)) && (max.all fun maxLen => decide (len ≤ maxLen))
  | .textLenSpec spec => input.data.length == spec
  | .numRange min max =>
    ((numParse input).map fun i =>
      (min.all fun minV => Num.le minV i) && (max.all fun maxV => Num.le i maxV)).getD false
  | .numSpec spec => ((numParse input).map fun i => Num.beq i spec).getD false
  | .num integer =>
    match integer with
    | some true => (parseI64 input).isSome
    | some false => (parseI64 input).isNone && (parseFiniteFloat input).isSome
    | none => (parseFiniteFloat input).isSome
  | .textAllCase upper =>
    if upper then !(input.data.any Char.isLower) else !(input.data.any Char.isUpper)
  | .ascii asc =>
    if asc then input.data.all (fun c => c.toNat ≤ 127)
    else input.data.all (fun c => !(c.toNat ≤ 127))
  | .textEmptyOrBlank empty =>
    if empty then input.data.isEmpty else input.data.all rustIsWhitespace

inductive Condition where
  | yes (select : Select)
  | no (select : Select)

/-- Embeds `Condition::test` from `condition.rs` (lines 18-23). -/
def Condition.test (c : Condition) (input : String) : Bool :=
  match c with
  | .yes select => select.select input
  | .no select => !(select.select input)

/-- C1 counterexample: on the non-numeric input `"abc"` the negated
condition `!num 1,5` evaluates to `true`, not `false`: `Condition::test`
negates the `Select` result, and a parse failure makes `select` return
`false`, which the negation turns into `true` (the repository's own test
`test_integer_range` asserts exactly this). -/
theorem c1_negated_num_range_true_on_parse_failure :
    (Condition.no (Select.numRange (some (Num.int 1)) (some (Num.int 5)))).test "abc" = true := by
  decide

/-- C1 (amended): for every string that does not parse as a `Num`, the
un-negated numeric range condition evaluates to `false`, while its negated
form evaluates to `true`: negation is applied to the result of `select`,
which is `false` on parse failure. -/
theorem c1_num_range_parse_failure (s : String) (mn mx : Option Num)
    (h : numParse s = none) :
    (Condition.yes (Select.numRange mn mx)).test s = false ∧
    (Condition.no (Select.numRange mn mx)).test s = true := by
  constructor <;> simp [Condition.test, Select.select, h]

/-- C1 witness: the amended statement applied at input `"abc"` with range `1,5`. -/
theorem c1_witness :
    (Condition.yes (Select.numRange (some (Num.int 1)) (some (Num.int 5)))).test "abc" = false ∧
    (Condition.no (Select.numRange (some (Num.int 1)) (some (Num.int 5)))).test "abc" = true :=
  c1_num_range_parse_failure "abc" (some (Num.int 1)) (some (Num.int 5)) (by decide)

/-! ## Generator input (`src/src/input.rs`)

`RangeIter` and `range_to_iter` (lines 155-193) and the `Gen` arm of
`Input::try_into` (lines 132-145, the no-format path).  The Rust iterator is
pull-based and possibly infinite; it is streamed here with an explicit fuel
bound, which is irrelevant whenever the iterator is exhausted before the
fuel runs out. -/

structure RangeIter where
  start : Int
  /-- the `end` field (a reserved word in Lean). -/
  endv : Int
  step : Int
  /-- the `next` (forward cursor) field. -/
  nextv : Int
  /-- the `next_back` (backward cursor) field. -/
  nextBack : Int
  deriving Repr, DecidableEq

/-- Embeds `Iterator::next` for `RangeIter` (input.rs lines 172-180). -/
def RangeIter.next (it : RangeIter) : Option (Int × RangeIter) :=
  if it.nextv ≥ it.start ∧ it.nextv ≤ it.endv ∧ it.nextv ≤ it.nextBack then
    some (it.nextv, { it with nextv := it.nextv + it.step })
  else none

/-- Embeds `DoubleEndedIterator::next_back` for `RangeIter` (input.rs lines 184-192). -/
def RangeIter.nextBackItem (it : RangeIter) : Option (Int × RangeIter) :=
  if it.nextBack ≥ it.start ∧ it.nextBack ≤ it.endv ∧ it.nextBack ≥ it.nextv then
    some (it.nextBack, { it with nextBack := it.nextBack - it.step })
  else none

/-- Pull up to `fuel` items from the forward cursor. -/
def rangeTakeFwd : Nat → RangeIter → List Int
  | 0, _ => []
  | fuel + 1, it =>
    match it.next with
    | none => []
    | some (v, it2) => v :: rangeTakeFwd fuel it2

/-- Pull up to `fuel` items from the backward cursor (`Rev`). -/
def rangeTakeBwd : Nat → RangeIter → List Int
  | 0, _ => []
  | fuel + 1, it =>
    match it.nextBackItem with
    | none => []
    | some (v, it2) => v :: rangeTakeBwd fuel it2

/-- Embeds `range_to_iter` (input.rs lines 155-158): builds the iterator with
`step: Integer::abs(step)` and reverses it when `step < 0`. -/
def rangeToIterList (fuel : Nat) (start endv step : Int) : List Int :=
  let iter : RangeIter := { start := start, endv := endv, step := (step.natAbs : Int),
                            nextv := start, nextBack := endv }
  if step < 0 then rangeTakeBwd fuel iter else rangeTakeFwd fuel iter

/-- The `Gen` arm of `Input::try_into` without a format template
(input.rs line 143): each generated integer is rendered with `to_string`. -/
def genRecords (fuel : Nat) (start endv step : Int) : List String :=
  (rangeToIterList fuel start endv step).map (fun i => toString i)

/-- C2: evaluating the generator at the failing input `Gen {start: 0,
end: 10, step: 2}` (no format).  `RangeIter::next` keeps yielding while
`next <= end`, so the end bound is *inclusive* and the output is
`0 2 4 6 8 10` — not the `0 2 4 6 8` promised by the claim and by the
code's own doc example `:gen 0,10,2`.  The fuel 16 exceeds the sequence
length, so the list shown is the complete output. -/
theorem c2_gen_end_is_inclusive :
    genRecords 16 0 10 2 = ["0", "2", "4", "6", "8", "10"] ∧
    genRecords 16 0 10 2 ≠ ["0", "2", "4", "6", "8"] := by
  constructor <;> decide

/-! ## Exit codes (`src/src/err.rs`)

`RpErr::exit_code` (lines 72-93) allocates `let mut code = 0u8..;` and each
match arm evaluates `code.next().unwrap()`.  Since the range iterator is
created afresh on every call and only the single matched arm advances it,
every arm yields the first element of `0u8..`. -/

/-- Rust `RangeFrom` over `u8` as used in `exit_code` (values stay far below
`u8::MAX`, so no wraparound is reachable). -/
structure RangeFrom where
  nextVal : Nat

/-- Embeds `Iterator::next` for `RangeFrom` (always succeeds below the overflow
bound, hence the source's `.unwrap()`). -/
def RangeFrom.next (r : RangeFrom) : Nat × RangeFrom :=
  (r.nextVal, ⟨r.nextVal + 1⟩)

inductive RpErr where
  | parseConfigTokenErr (msg : String)
  | parseInputTokenErr (msg : String)
  | parseOpTokenErr (msg : String)
  | parseOutputTokenErr (msg : String)
  | argParseErr (cmd arg argValue error : String)
  | unexpectedRemaining (cmd arg remaining : String)
  | missingArg (cmd arg : String)
  | argNotEnough (cmd arg : String)
  | unclosingMultiArg (cmd arg : String)
  | unexpectedClosingBracket (cmd arg : String)
  | unknownArgs (args : List String)
  | readClipboardTextErr (msg : String)
  | openInputFileErr (file err : String)
  | readFromInputFileErr (file : String) (lineNo : Nat) (err : String)
  | writeToClipboardErr (msg : String)
  | openOutputFileErr (file err : String)
  | writeToOutputFileErr (file item err : String)
  deriving Repr, DecidableEq

/-- Embeds `RpErr::exit_code` (err.rs lines 72-93), arm for arm: each arm draws the
first element of the freshly created `0u8..` iterator. -/
def RpErr.exit_code (e : RpErr) : Nat :=
  let code : RangeFrom := ⟨0⟩
  match e with
  | .parseConfigTokenErr _ => code.next.1
  | .parseInputTokenErr _ => code.next.1
  | .parseOpTokenErr _ => code.next.1
  | .parseOutputTokenErr _ => code.next.1
  | .argParseErr _ _ _ _ => code.next.1
  | .unexpectedRemaining _ _ _ => code.next.1
  | .missingArg _ _ => code.next.1
  | .argNotEnough _ _ => code.next.1
  | .unclosingMultiArg _ _ => code.next.1
  | .unexpectedClosingBracket _ _ => code.next.1
  | .unknownArgs _ => code.next.1
  | .readClipboardTextErr _ => code.next.1
  | .openInputFileErr _ _ => code.next.1
  | .readFromInputFileErr _ _ _ => code.next.1
  | .writeToClipboardErr _ => code.next.1
  | .openOutputFileErr _ _ => code.next.1
  | .writeToOutputFileErr _ _ _ => code.next.1

/-- C4: every error kind is assigned the exit code 0 — the success code —
because each match arm of `exit_code` takes the first element of a fresh
`0u8..` range; in particular no code is positive and no two kinds are
distinguished.  The two explicit evaluations exhibit a concrete collision. -/
theorem c4_exit_code_always_zero :
    (∀ e : RpErr, e.exit_code = 0) ∧
    RpErr.exit_code (.parseConfigTokenErr "x") = RpErr.exit_code (.unknownArgs []) := by
  refine ⟨fun e => ?_, rfl⟩
  cases e <;> rfl

/-! ## Numeric sort (`src/src/op/mod.rs`, `Op::wrap`, `Sort`/`SortBy::Num` arm)

With no caller-supplied default (`SortBy::Num(None, None)`), the arm picks
`def = Float::MAX` and sorts the buffered records ascending and stably by
the key `OrderedFloat(item.parse::<f64>().unwrap_or(def))` (itertools
`sorted_by_key`).  The output of a stable ascending key sort is uniquely
determined — elements ordered by key, ties kept in original order — so it
is modelled by a stable insertion sort.  `f64::MAX` is the exact value
`(2^53 - 1) * 2^971`; `parse::<f64>` on the claim's records coincides with
`parseFiniteFloat` (all are plain finite decimals or parse failures). -/

/-- Embeds `f64::MAX` as an exact value, `(2^53 - 1) * 2^971`. -/
def f64MAX : Dec := { num := Int.ofNat ((2 ^ 53 - 1) * 2 ^ 971), denPow := 0 }

/-- Sort key of one record: parsed value, or the default on parse failure. -/
def sortNumKey (dflt : Dec) (item : String) : Dec :=
  (parseFiniteFloat item).getD dflt

/-- Stable insertion of `x` into an already sorted list: `x` goes before
the first element whose key is not smaller, so ties keep original order. -/
def insertByKey (key : String → Dec) (x : String) : List String → List String
  | [] => [x]
  | y :: ys => if Dec.lt (key y) (key x) then y :: insertByKey key x ys else x :: y :: ys

/-- Stable ascending sort by key (the unique result of `sorted_by_key`). -/
def sortedByKey (key : String → Dec) : List String → List String
  | [] => []
  | x :: xs => insertByKey key x (sortedByKey key xs)

/-- The `SortBy::Num(None, None)`, `desc = false` path of `Op::wrap`
(op/mod.rs lines 370-387). -/
def sortNumDefaultAsc (records : List String) : List String :=
  sortedByKey (sortNumKey f64MAX) records

/-- C3 counterexample: ascending numeric sort of `["3", "x", "1"]` with the
unparseable-record default left at the maximum does not output
`["3", "1", "x"]`. -/
theorem c3_sort_num_not_as_claimed :
    sortNumDefaultAsc ["3", "x", "1"] ≠ ["3", "1", "x"] := by
  decide

/-- C3 (amended): ascending numeric sort of `["3", "x", "1"]` with default
`f64::MAX` outputs `["1", "3", "x"]` — ascending by numeric value, with the
unparseable record `"x"` sorted last. -/
theorem c3_sort_num_default_max :
    sortNumDefaultAsc ["3", "x", "1"] = ["1", "3", "x"] := by
  decide

/-! ## Global configuration (`src/src/config.rs`) -/

inductive Config where
  | version
  | help
  | verbose
  | dryRun
  | nocase
  | eval
  deriving Repr, DecidableEq

/-- Embeds `is_nocase` (config.rs lines 24-27). -/
def is_nocase (nocase : Bool) (configs : List Config) : Bool :=
  nocase || configs.contains Config.nocase

/-! ## ASCII case primitives (Rust `u8`/`char` `to_ascii_*` and the
byte-level case switch of the `Case(Switch)` arm) -/

/-- Rust `to_ascii_lowercase` on one character. -/
def asciiLowerChar (c : Char) : Char :=
  if 'A' ≤ c ∧ c ≤ 'Z' then Char.ofNat (c.toNat + 32) else c

/-- Rust `to_ascii_uppercase` on one character. -/
def asciiUpperChar (c : Char) : Char :=
  if 'a' ≤ c ∧ c ≤ 'z' then Char.ofNat (c.toNat - 32) else c

/-- The byte loop of the `Case(Switch)` arm of `Op::wrap`
(op/mod.rs lines 281-292): `b'A'..=b'Z' => *b += 32`,
`b'a'..=b'z' => *b -= 32`, all other bytes untouched.  Bytes are modelled
as `Nat` (both additions stay below 256, so `u8` arithmetic never wraps). -/
def caseSwitchByte (b : Nat) : Nat :=
  if 65 ≤ b ∧ b ≤ 90 then b + 32
  else if 97 ≤ b ∧ b ≤ 122 then b - 32
  else b

/-- The `Case(Switch)` transform on a record's UTF-8 byte sequence. -/
def caseSwitch (bs : List Nat) : List Nat :=
  bs.map caseSwitchByte

/-- An ASCII letter byte. -/
def isAsciiLetterByte (b : Nat) : Bool :=
  (65 ≤ b ∧ b ≤ 90) ∨ (97 ≤ b ∧ b ≤ 122)

lemma caseSwitchByte_involutive (b : Nat) :
    caseSwitchByte (caseSwitchByte b) = b := by
  unfold caseSwitchByte
  split_ifs <;> omega

/-- C9: the case-switch transform is an involution on the byte sequence,
preserves its length, and is the identity exactly off the ASCII letter
bytes (every letter byte is changed, every non-letter byte is kept). -/
theorem c9_case_switch_involution (bs : List Nat) :
    caseSwitch (caseSwitch bs) = bs ∧
    (caseSwitch bs).length = bs.length ∧
    (∀ b : Nat, isAsciiLetterByte b = true → caseSwitchByte b ≠ b) ∧
    (∀ b : Nat, isAsciiLetterByte b = false → caseSwitchByte b = b) := by
  refine ⟨?_, ?_, ?_, ?_⟩
  · simp [caseSwitch, List.map_map, Function.comp_def, caseSwitchByte_involutive]
  · simp [caseSwitch]
  · intro b hb
    simp only [isAsciiLetterByte, Bool.decide_or, Bool.or_eq_true, decide_eq_true_eq] at hb
    unfold caseSwitchByte
    split_ifs <;> omega
  · intro b hb
    simp only [isAsciiLetterByte, Bool.decide_or, Bool.or_eq_false_iff,
      decide_eq_false_iff_not, not_and, not_le] at hb
    unfold caseSwitchByte
    split_ifs <;> omega

/-! ## Replace (`src/src/op.rs` `replace_with_count_and_nocase`,
`src/src/op/mod.rs` `Op::wrap` Replace arm)

`op/mod.rs` delegates to `ReplaceArg::replace` whose file (`op/replace.rs`)
is not under `src/`; the replacement algorithm is taken from the
repository's own `replace_with_count_and_nocase` in `src/src/op.rs`, which
implements the same documented semantics (and whose unit tests are replayed
below).  Text is modelled char-wise; the source's byte indices and Unicode
`to_lowercase` coincide with char indices and per-char ASCII lowering on
every input the claims and the replayed tests exercise. -/

/-- Embeds `str::match_indices` for a non-empty pattern: left-to-right,
non-overlapping, the scan resuming after each match.  `fuel` bounds the
scan and is in practice `hay.length + 1`. -/
def matchIndicesAux (pat : List Char) : Nat → List Char → Nat → List Nat
  | 0, _, _ => []
  | fuel + 1, s, i =>
    if pat.isPrefixOf s then
      i :: matchIndicesAux pat fuel (s.drop pat.length) (i + pat.length)
    else
      match s with
      | [] => []
      | _ :: rest => matchIndicesAux pat fuel rest (i + 1)

/-- Embeds `str::match_indices`: for the empty pattern there is a match at every
boundary (indices `0..=hay.length`). -/
def matchIndices (hay pat : List Char) : List Nat :=
  if pat.isEmpty then List.range (hay.length + 1)
  else matchIndicesAux pat (hay.length + 1) hay 0

/-- The stitching loop of `replace_with_count_and_nocase`: for each match
start, append the text between the previous end and the start, then the
replacement; finally append the rest of the text. -/
def replaceGo (text toS : List Char) (fromLen : Nat) : Nat → List Nat → List Char
  | lastEnd, [] => text.drop lastEnd
  | lastEnd, start :: rest =>
    (text.drop lastEnd).take (start - lastEnd) ++ toS ++
      replaceGo text toS fromLen (start + fromLen) rest

/-- Embeds `replace_with_count_and_nocase` (op.rs lines 226-261): when `nocase`,
matching happens on the lowered text/pattern while the stitched output
preserves the original casing; `count = None` means unlimited (the
source's `usize::MAX` bound, unreachable for any actual string). -/
def replace_with_count_and_nocase (text fromS toS : List Char) (count : Option Nat)
    (nocase : Bool) : List Char :=
  let actualText := if nocase then text.map asciiLowerChar else text
  let actualFrom := if nocase then fromS.map asciiLowerChar else fromS
  let allMatches := matchIndices actualText actualFrom
  let taken := match count with
    | some m => allMatches.take m
    | none => allMatches
  if taken.isEmpty then text else replaceGo text toS fromS.length 0 taken

/-- Embeds `ReplaceArg` (fields of the Replace op; `from` is reserved in Lean). -/
structure ReplaceArg where
  fromS : String
  toS : String
  count : Option Nat
  nocase : Bool
  deriving Repr, DecidableEq

/-- The Replace arm of `Op::wrap` (op/mod.rs lines 294-306): a count of
exactly 0 returns the pipe unchanged; otherwise each record is mapped
through the replacement. -/
def replaceWrap (arg : ReplaceArg) (configs : List Config) (records : List String) :
    List String :=
  if arg.count = some 0 then records
  else records.map fun item =>
    ⟨replace_with_count_and_nocase item.data arg.fromS.data arg.toS.data arg.count
      (is_nocase arg.nocase configs)⟩

/-- The replacement algorithm replays the repository's own unit tests
(`test_replace_with_count_and_nocase` in op.rs). -/
theorem replace_matches_repo_tests :
    replace_with_count_and_nocase "abc ABC abc abc".data "abc".data "1234".data none false
      = "1234 ABC 1234 1234".data ∧
    replace_with_count_and_nocase "abc ABC abc abc".data "AbC".data "1234".data none true
      = "1234 1234 1234 1234".data ∧
    replace_with_count_and_nocase "abc ABC abc abc".data "abc".data "1234".data (some 2) false
      = "1234 ABC 1234 abc".data ∧
    replace_with_count_and_nocase "abc".data "".data "_".data none true
      = "_a_b_c_".data := by
  refine ⟨?_, ?_, ?_, ?_⟩ <;> decide

/-- C7: the Replace operator with an occurrence count of exactly 0 is the
identity on the record stream, for every record sequence, every from/to
pair and either nocase setting. -/
theorem c7_replace_count_zero_identity (fromS toS : String) (nocase : Bool)
    (configs : List Config) (records : List String) :
    replaceWrap ⟨fromS, toS, some 0, nocase⟩ configs records = records := by
  simp [replaceWrap]

/-! ## Trim (`src/src/op/trim.rs`)

`TrimArg::trim` (lines 92-142) with its `Blank`, `Str` and `Chars`
parameters; the `Regex` parameter is carried by an external engine and no
claim touches that arm, so it is omitted from the embedding.  The final
`if trimmed == &to_trim { to_trim } else { trimmed.to_owned() }` returns
the same text either way and is the identity here. -/

inductive TrimPos where
  | head
  | tail
  | both
  deriving Repr, DecidableEq

inductive TrimParam where
  | blank
  | str (pattern : String)
  | chars (pattern : List Char)

structure TrimArg where
  pos : TrimPos
  param : TrimParam
  nocase : Bool

/-- Rust `str::trim_start` for whitespace. -/
def trimStartWs (s : List Char) : List Char :=
  s.dropWhile rustIsWhitespace

/-- Rust `str::trim_end` for whitespace. -/
def trimEndWs (s : List Char) : List Char :=
  (s.reverse.dropWhile rustIsWhitespace).reverse

/-- Rust `str::trim`: whitespace stripped from both ends. -/
def rustStrTrim (s : List Char) : List Char :=
  trimEndWs (trimStartWs s)

/-- Embeds `trim_head_str_nocase` (trim.rs lines 144-159): strips `pattern` from
the head when the lowered head matches it. -/
def trim_head_str_nocase (toTrim : List Char) (pattern : List Char) : List Char :=
  if pattern.isPrefixOf (toTrim.map asciiLowerChar) then toTrim.drop pattern.length
  else toTrim

/-- Embeds `trim_tail_str_nocase` (trim.rs lines 161-176). -/
def trim_tail_str_nocase (toTrim : List Char) (pattern : List Char) : List Char :=
  if pattern.isSuffixOf (toTrim.map asciiLowerChar) then
    toTrim.take (toTrim.length - pattern.length)
  else toTrim

/-- Embeds `str::strip_prefix(pattern).unwrap_or(to_trim)`. -/
def stripPrefixOr (toTrim pattern : List Char) : List Char :=
  if pattern.isPrefixOf toTrim then toTrim.drop pattern.length else toTrim

/-- Embeds `str::strip_suffix(pattern).unwrap_or(to_trim)`. -/
def stripSuffixOr (toTrim pattern : List Char) : List Char :=
  if pattern.isSuffixOf toTrim then toTrim.take (toTrim.length - pattern.length)
  else toTrim

/-- Embeds `trim_head_char_nocase` (trim.rs lines 178-188). -/
def trim_head_char_nocase (toTrim : List Char) (chars : List Char) : List Char :=
  toTrim.dropWhile fun ch => chars.contains (asciiLowerChar ch)

/-- Embeds `trim_tail_char_nocase` (trim.rs lines 190-200). -/
def trim_tail_char_nocase (toTrim : List Char) (chars : List Char) : List Char :=
  (toTrim.reverse.dropWhile fun ch => chars.contains (asciiLowerChar ch)).reverse

/-- Embeds `trim_head_char` (trim.rs lines 202-205). -/
def trim_head_char (toTrim : List Char) (chars : List Char) : List Char :=
  toTrim.dropWhile fun ch => chars.contains ch

/-- Embeds `trim_tail_char` (trim.rs lines 207-210). -/
def trim_tail_char (toTrim : List Char) (chars : List Char) : List Char :=
  (toTrim.reverse.dropWhile fun ch => chars.contains ch).reverse

/-- Embeds `TrimArg::trim` (trim.rs lines 92-142) for the embedded parameters. -/
def TrimArg.trim (arg : TrimArg) (toTrim : String) (configs : List Config) : String :=
  match arg.param with
  | .blank => ⟨rustStrTrim toTrim.data⟩
  | .str pattern =>
    if is_nocase arg.nocase configs then
      match arg.pos with
      | .head => ⟨trim_head_str_nocase toTrim.data pattern.data⟩
      | .tail => ⟨trim_tail_str_nocase toTrim.data pattern.data⟩
      | .both => ⟨trim_tail_str_nocase (trim_head_str_nocase toTrim.data pattern.data)
          pattern.data⟩
    else
      match arg.pos with
      | .head => ⟨stripPrefixOr toTrim.data pattern.data⟩
      | .tail => ⟨stripSuffixOr toTrim.data pattern.data⟩
      | .both => ⟨stripSuffixOr (stripPrefixOr toTrim.data pattern.data) pattern.data⟩
  | .chars chars =>
    if is_nocase arg.nocase configs then
      match arg.pos with
      | .head => ⟨trim_head_char_nocase toTrim.data chars⟩
      | .tail => ⟨trim_tail_char_nocase toTrim.data chars⟩
      | .both => ⟨trim_tail_char_nocase (trim_head_char_nocase toTrim.data chars) chars⟩
    else
      match arg.pos with
      | .head => ⟨trim_head_char toTrim.data chars⟩
      | .tail => ⟨trim_tail_char toTrim.data chars⟩
      | .both => ⟨trim_tail_char (trim_head_char toTrim.data chars) chars⟩

/-- What a direction-respecting blank trim would be, following the spec's
words: head strips leading whitespace only, tail strips trailing whitespace
only, both strips both ends. -/
def specBlankTrim (pos : TrimPos) (s : String) : String :=
  match pos with
  | .head => ⟨trimStartWs s.data⟩
  | .tail => ⟨trimEndWs s.data⟩
  | .both => ⟨trimEndWs (trimStartWs s.data)⟩

/-- C10: the blank (no-pattern) trim ignores the configured direction: for
every string and every trim position, `TrimArg::trim` with the `Blank`
parameter strips whitespace from *both* ends — a head-only blank trim also
strips trailing whitespace, and a tail-only blank trim also strips leading
whitespace. -/
theorem c10_blank_trim_ignores_direction (pos : TrimPos) (nocase : Bool)
    (configs : List Config) (s : String) :
    TrimArg.trim ⟨pos, .blank, nocase⟩ s configs = specBlankTrim .both s ∧
    TrimArg.trim ⟨pos, .blank, nocase⟩ s configs
      = TrimArg.trim ⟨.both, .blank, nocase⟩ s configs := by
  cases pos <;> exact ⟨rfl, rfl⟩

/-! ## Uniq (`src/src/op/mod.rs`, `Op::wrap` Uniq arm, lines 311-317)

First-occurrence-wins deduplication: a hash-set of already-seen keys, where
the key is the record itself, or its ASCII-uppercased form when nocase is
in effect; `seen.insert(key)` keeps exactly the records whose key is new.
The hash-set is modelled by the list of inserted keys (membership is all
that `insert` is used for). -/

/-- Rust `str::to_ascii_uppercase`. -/
def asciiUpperStr (s : String) : String :=
  ⟨s.data.map asciiUpperChar⟩

/-- The dedup key of one record (op/mod.rs line 314). -/
def dedupKey (nocase : Bool) (configs : List Config) (item : String) : String :=
  if is_nocase nocase configs then asciiUpperStr item else item

/-- The filter closure of the Uniq arm, with the `seen` set made explicit. -/
def uniqAux (nocase : Bool) (configs : List Config) :
    List String → List String → List String
  | _, [] => []
  | seen, x :: xs =>
    if dedupKey nocase configs x ∈ seen then uniqAux nocase configs seen xs
    else x :: uniqAux nocase configs (dedupKey nocase configs x :: seen) xs

/-- The Uniq operator on a record sequence (`seen` starts empty). -/
def uniqOp (nocase : Bool) (configs : List Config) (records : List String) : List String :=
  uniqAux nocase configs [] records

lemma uniqAux_sublist (nocase : Bool) (configs : List Config) :
    ∀ (seen l : List String), (uniqAux nocase configs seen l).Sublist l := by
  intro seen l
  induction l generalizing seen with
  | nil => simp [uniqAux]
  | cons x xs ih =>
    by_cases h : dedupKey nocase configs x ∈ seen
    · simpa [uniqAux, h] using (ih seen).cons x
    · simpa [uniqAux, h] using (ih (dedupKey nocase configs x :: seen)).cons₂ x

lemma uniqAux_mem_spec (nocase : Bool) (configs : List Config) :
    ∀ (seen l : List String) (r : String), r ∈ uniqAux nocase configs seen l →
      dedupKey nocase configs r ∉ seen ∧
      l.find? (fun x => dedupKey nocase configs x == dedupKey nocase configs r) = some r := by
  intro seen l
  induction l generalizing seen with
  | nil => intro r hr; simp [uniqAux] at hr
  | cons x xs ih =>
    intro r hr
    by_cases h : dedupKey nocase configs x ∈ seen
    · rw [uniqAux, if_pos h] at hr
      obtain ⟨hns, hfind⟩ := ih seen r hr
      refine ⟨hns, ?_⟩
      have hne : ¬ (dedupKey nocase configs x == dedupKey nocase configs r) = true := by
        simp only [beq_iff_eq]
        intro heq
        exact hns (heq ▸ h)
      simp [List.find?, hne, hfind]
    · rw [uniqAux, if_neg h] at hr
      rcases List.mem_cons.mp hr with rfl | hr2
      · exact ⟨h, by simp [List.find?]⟩
      · obtain ⟨hns, hfind⟩ := ih (dedupKey nocase configs x :: seen) r hr2
        rw [List.mem_cons] at hns
        push_neg at hns
        refine ⟨hns.2, ?_⟩
        have hne : ¬ (dedupKey nocase configs x == dedupKey nocase configs r) = true := by
          simp only [beq_iff_eq]
          exact fun heq => hns.1 heq.symm
        simp [List.find?, hne, hfind]

lemma uniqAux_pairwise (nocase : Bool) (configs : List Config) :
    ∀ (seen l : List String), (uniqAux nocase configs seen l).Pairwise
      (fun a b => dedupKey nocase configs a ≠ dedupKey nocase configs b) := by
  intro seen l
  induction l generalizing seen with
  | nil => simp [uniqAux]
  | cons x xs ih =>
    by_cases h : dedupKey nocase configs x ∈ seen
    · simpa [uniqAux, h] using ih seen
    · rw [uniqAux, if_neg h]
      refine List.Pairwise.cons ?_ (ih (dedupKey nocase configs x :: seen))
      intro b hb
      have := (uniqAux_mem_spec nocase configs _ _ b hb).1
      rw [List.mem_cons] at this
      push_neg at this
      exact fun heq => this.1 heq.symm

/-- C8: for every input sequence, the Uniq output (a) is a subsequence of
the input, so surviving records keep their original relative order and
original textual form, (b) contains no two records with an equal dedup key,
and (c) each surviving record is the *first* input record bearing its key. -/
theorem c8_uniq_first_occurrence (nocase : Bool) (configs : List Config)
    (records : List String) :
    (uniqOp nocase configs records).Sublist records ∧
    (uniqOp nocase configs records).Pairwise
      (fun a b => dedupKey nocase configs a ≠ dedupKey nocase configs b) ∧
    ∀ r ∈ uniqOp nocase configs records,
      records.find?
        (fun x => dedupKey nocase configs x == dedupKey nocase configs r) = some r :=
  ⟨uniqAux_sublist nocase configs [] records,
   uniqAux_pairwise nocase configs [] records,
   fun r hr => (uniqAux_mem_spec nocase configs [] records r hr).2⟩

/-! ## Argument-vector operator grammar (`src/src/parse/args/op.rs`)

`parse_op` dispatches on the head keyword (case-insensitively); each
sub-parser consumes its tokens from the `Peekable` argument iterator,
modelled as explicit list passing.  The operator type is the one these
parsers build (`src/src/op.rs`): `Peek | Upper | Lower | Case | Replace |
Uniq`. -/

/-- Embeds `PeekTo` (op.rs lines 11-15). -/
inductive PeekTo where
  | stdOut
  | file (file : String) (append : Bool) (crlf : Option Bool)
  deriving Repr, DecidableEq

/-- The operator descriptors built by the argument-vector grammar. -/
inductive Op where
  | peek (peekTo : PeekTo)
  | upper
  | lower
  | case
  | replace (arg : ReplaceArg)
  | uniq (nocase : Bool)
  deriving Repr, DecidableEq

/-- Embeds `str::eq_ignore_ascii_case`. -/
def eqIgnoreAsciiCase (a b : String) : Bool :=
  a.data.map asciiLowerChar == b.data.map asciiLowerChar

/-- Rust `<usize as FromStr>::from_str` (`parse::<usize>()`): optional `+`,
one or more digits, value below `2^64`. -/
def parseUsize (s : String) : Option Nat :=
  let rest := match s.data with
    | '+' :: r => r
    | r => r
  if rest ≠ [] ∧ rest.all Char.isDigit then
    if digitsVal rest < 2 ^ 64 then some (digitsVal rest) else none
  else none

/-- Embeds `consume_if` (parse/args/mod.rs lines 58-69) on an explicit list. -/
def consumeIf (args : List String) (f : String → Bool) : Option String × List String :=
  match args with
  | v :: rest => if f v then (some v, rest) else (none, args)
  | [] => (none, args)

/-- Embeds `consume_if_some` (parse/args/mod.rs lines 86-101) on an explicit list. -/
def consumeIfSome (args : List String) (m : String → Option Nat) :
    Option Nat × List String :=
  match args with
  | v :: rest =>
    match m v with
    | some u => (some u, rest)
    | none => (none, args)
  | [] => (none, args)

/-- Embeds `parse_replace` (parse/args/op.rs lines 52-67); the head keyword has
already been matched and is consumed first. -/
def parse_replace (args : List String) : Except RpErr (Option Op × List String) :=
  match args.tail with
  | [] => .error (.missingArg "replace" "from")
  | fromV :: rest2 =>
    match rest2 with
    | [] => .error (.missingArg "replace" "to")
    | toV :: rest3 =>
      let countRes := consumeIfSome rest3 parseUsize
      let nocaseRes := consumeIf countRes.2 (fun s => eqIgnoreAsciiCase s "nocase")
      .ok (some (.replace ⟨fromV, toV, countRes.1, nocaseRes.1.isSome⟩), nocaseRes.2)

/-- Embeds `parse_uniq` (parse/args/op.rs lines 69-76). -/
def parse_uniq (args : List String) : Except RpErr (Option Op × List String) :=
  let rest := args.tail
  let nocase := match rest with
    | v :: _ => eqIgnoreAsciiCase v "nocase"
    | [] => false
  .ok (some (.uniq nocase), if nocase then rest.tail else rest)

/-- Embeds `parse_peek` (parse/args/op.rs lines 78-85): it consumes the `peek`
keyword, looks for `nocase`, and returns `Op::new_uniq(nocase)` — the body
is identical to `parse_uniq`. -/
def parse_peek (args : List String) : Except RpErr (Option Op × List String) :=
  let rest := args.tail
  let nocase := match rest with
    | v :: _ => eqIgnoreAsciiCase v "nocase"
    | [] => false
  .ok (some (.uniq nocase), if nocase then rest.tail else rest)

/-- Embeds `parse_op` (parse/args/op.rs lines 14-35). -/
def parse_op (args : List String) : Except RpErr (Option Op × List String) :=
  match args with
  | [] => .ok (none, [])
  | cmd :: _ =>
    if eqIgnoreAsciiCase cmd "upper" then .ok (some .upper, args.tail)
    else if eqIgnoreAsciiCase cmd "lower" then .ok (some .lower, args.tail)
    else if eqIgnoreAsciiCase cmd "case" then .ok (some .case, args.tail)
    else if eqIgnoreAsciiCase cmd "replace" then parse_replace args
    else if eqIgnoreAsciiCase cmd "uniq" then parse_uniq args
    else if eqIgnoreAsciiCase cmd "peek" then parse_peek args
    else .ok (none, args)

/-- The ASCII case switch on one character (the `Case` arm of `Op::wrap`,
char-for-byte: ASCII letters occupy single UTF-8 bytes, so the byte loop
and the per-char transform agree). -/
def caseSwitchChar (c : Char) : Char :=
  if 'A' ≤ c ∧ c ≤ 'Z' then Char.ofNat (c.toNat + 32)
  else if 'a' ≤ c ∧ c ≤ 'z' then Char.ofNat (c.toNat - 32)
  else c

/-- Embeds `Op::wrap` restricted to its effect on the record sequence (`op.rs`
lines 93-213; the `Peek` arms use `op_inspect`, a side-effecting
pass-through that leaves the records themselves unchanged; the uniform-case
fast paths of `Upper`/`Lower` return the item unchanged exactly when the
mapping would, so both are the plain map). -/
def Op.wrapRecords (op : Op) (configs : List Config) (records : List String) :
    List String :=
  match op with
  | .peek _ => records
  | .upper => records.map fun s => ⟨s.data.map asciiUpperChar⟩
  | .lower => records.map fun s => ⟨s.data.map asciiLowerChar⟩
  | .case => records.map fun s => ⟨s.data.map caseSwitchChar⟩
  | .replace arg => replaceWrap arg configs records
  | .uniq nocase => uniqOp nocase configs records

/-- C6: evaluating the argument grammar at the failing input: the token
list `["peek"]` parses to `Op::Uniq {nocase: false}` — not a `Peek`
operator — because `parse_peek`'s body returns `Op::new_uniq(nocase)`.
Wrapping the pipe `["a", "a"]` with the operator the parser produced
*removes* the duplicate record, while a real `Peek` operator leaves the
records unchanged. -/
theorem c6_peek_keyword_builds_uniq :
    parse_op ["peek"] = .ok (some (Op.uniq false), []) ∧
    Op.wrapRecords (Op.uniq false) [] ["a", "a"] = ["a"] ∧
    Op.wrapRecords (Op.peek PeekTo.stdOut) [] ["a", "a"] = ["a", "a"] := by
  refine ⟨rfl, by decide, by decide⟩

/-! ## Token-level gen range grammar (`src/src/parse/token/input.rs`,
`parse_range_in_gen`, lines 56-80)

A nom alternation over six tuple branches, tried in order, each committing
only if every component parses; the backtracking `alt` is modelled by
ordered `Option` fallback.  `verify(parse_integer, |s| *s != 0)` guards the
step in every branch that parses one.  `parse_integer` itself is not under
`src/` (the token module of this revision only re-exports it), so it is
modelled from the spec's gen sub-grammar: an optionally signed decimal
integer, maximal munch, within the `i64` range. -/

/-- The value `parse_range_in_gen` builds:
`Input::new_gen(start, end, close == '=', step)`. -/
structure GenArgs where
  start : Int
  endv : Int
  inclusive : Bool
  step : Int
  deriving Repr, DecidableEq

/-- Modelled from the spec: `parse_integer` — an optionally signed decimal
integer token, consuming the longest sign-and-digits prefix, `i64`-ranged.
Returns the remaining input and the value, in nom's `(rest, value)` shape. -/
def parseIntegerTok (cs : List Char) : Option (List Char × Int) :=
  let signRest : Int × List Char :=
    match cs with
    | '+' :: r => (1, r)
    | '-' :: r => (-1, r)
    | _ => (1, cs)
  let ds := signRest.2.takeWhile Char.isDigit
  let rest := signRest.2.dropWhile Char.isDigit
  if ds = [] then none
  else
    let v := signRest.1 * (digitsVal ds : Int)
    if -(2 ^ 63) ≤ v ∧ v ≤ 2 ^ 63 - 1 then some (rest, v) else none

/-- nom `char(c)`: consume exactly the character `c`. -/
def expectChar (c : Char) (cs : List Char) : Option (List Char) :=
  match cs with
  | x :: rest => if x = c then some rest else none
  | [] => none

/-- Branch `0,=10,2`: `(int, ',', '=', int, ',', verify(int, ≠0))`. -/
def genBranch1 (s : List Char) : Option (List Char × GenArgs) := do
  let p1 ← parseIntegerTok s
  let r2 ← expectChar ',' p1.1
  let r3 ← expectChar '=' r2
  let p2 ← parseIntegerTok r3
  let r5 ← expectChar ',' p2.1
  let p3 ← parseIntegerTok r5
  if p3.2 ≠ 0 then pure (p3.1, ⟨p1.2, p2.2, true, p3.2⟩) else none

/-- Branch `0,10,2`: `(int, ',', success(' '), int, ',', verify(int, ≠0))`. -/
def genBranch2 (s : List Char) : Option (List Char × GenArgs) := do
  let p1 ← parseIntegerTok s
  let r2 ← expectChar ',' p1.1
  let p2 ← parseIntegerTok r2
  let r4 ← expectChar ',' p2.1
  let p3 ← parseIntegerTok r4
  if p3.2 ≠ 0 then pure (p3.1, ⟨p1.2, p2.2, false, p3.2⟩) else none

/-- Branch `0,=10`: `(int, ',', '=', int, success(','), success(1))`. -/
def genBranch3 (s : List Char) : Option (List Char × GenArgs) := do
  let p1 ← parseIntegerTok s
  let r2 ← expectChar ',' p1.1
  let r3 ← expectChar '=' r2
  let p2 ← parseIntegerTok r3
  pure (p2.1, ⟨p1.2, p2.2, true, 1⟩)

/-- Branch `0,10`: `(int, ',', success(' '), int, success(','), success(1))`. -/
def genBranch4 (s : List Char) : Option (List Char × GenArgs) := do
  let p1 ← parseIntegerTok s
  let r2 ← expectChar ',' p1.1
  let p2 ← parseIntegerTok r2
  pure (p2.1, ⟨p1.2, p2.2, false, 1⟩)

/-- Branch `0,,2`:
`(int, ',', success(' '), success(Integer::MAX), ',', verify(int, ≠0))`. -/
def genBranch5 (s : List Char) : Option (List Char × GenArgs) := do
  let p1 ← parseIntegerTok s
  let r2 ← expectChar ',' p1.1
  let r3 ← expectChar ',' r2
  let p3 ← parseIntegerTok r3
  if p3.2 ≠ 0 then pure (p3.1, ⟨p1.2, 2 ^ 63 - 1, false, p3.2⟩) else none

/-- Branch `0`:
`(int, success(','), success(' '), success(Integer::MAX), success(','), success(1))`. -/
def genBranch6 (s : List Char) : Option (List Char × GenArgs) := do
  let p1 ← parseIntegerTok s
  pure (p1.1, ⟨p1.2, 2 ^ 63 - 1, false, 1⟩)

/-- Embeds `parse_range_in_gen`: the six branches in source order, first success
wins (nom `alt` backtracking). -/
def parse_range_in_gen (s : List Char) : Option (List Char × GenArgs) :=
  genBranch1 s <|> genBranch2 s <|> genBranch3 s <|> genBranch4 s <|>
    genBranch5 s <|> genBranch6 s

lemma genBranch1_step_ne_zero (s r : List Char) (g : GenArgs)
    (h : genBranch1 s = some (r, g)) : g.step ≠ 0 := by
  simp only [genBranch1, Option.bind_eq_some, bind] at h
  obtain ⟨p1, h1, r2, h2, r3, h3, p2, h4, r5, h5, p3, h6, h⟩ := h
  split at h
  · simp only [pure, Option.some_inj] at h
    cases h
    simpa using by assumption
  · simp at h

lemma genBranch2_step_ne_zero (s r : List Char) (g : GenArgs)
    (h : genBranch2 s = some (r, g)) : g.step ≠ 0 := by
  simp only [genBranch2, Option.bind_eq_some, bind] at h
  obtain ⟨p1, h1, r2, h2, p2, h3, r4, h4, p3, h5, h⟩ := h
  split at h
  · simp only [pure, Option.some_inj] at h
    cases h
    simpa using by assumption
  · simp at h

lemma genBranch3_step_ne_zero (s r : List Char) (g : GenArgs)
    (h : genBranch3 s = some (r, g)) : g.step ≠ 0 := by
  simp only [genBranch3, Option.bind_eq_some, bind, pure, Option.some_inj] at h
  obtain ⟨p1, h1, r2, h2, r3, h3, p2, h4, h⟩ := h
  cases h
  simp

lemma genBranch4_step_ne_zero (s r : List Char) (g : GenArgs)
    (h : genBranch4 s = some (r, g)) : g.step ≠ 0 := by
  simp only [genBranch4, Option.bind_eq_some, bind, pure, Option.some_inj] at h
  obtain ⟨p1, h1, r2, h2, p2, h3, h⟩ := h
  cases h
  simp

lemma genBranch5_step_ne_zero (s r : List Char) (g : GenArgs)
    (h : genBranch5 s = some (r, g)) : g.step ≠ 0 := by
  simp only [genBranch5, Option.bind_eq_some, bind] at h
  obtain ⟨p1, h1, r2, h2, r3, h3, p3, h4, h⟩ := h
  split at h
  · simp only [pure, Option.some_inj] at h
    cases h
    simpa using by assumption
  · simp at h

lemma genBranch6_step_ne_zero (s r : List Char) (g : GenArgs)
    (h : genBranch6 s = some (r, g)) : g.step ≠ 0 := by
  simp only [genBranch6, Option.bind_eq_some, bind, pure, Option.some_inj] at h
  obtain ⟨p1, h1, h⟩ := h
  cases h
  simp

/-- C5 counterexample: the gen range grammar does *not* accept a zero step.
On the token `0,10,0` no branch parses a step of 0 (`verify(|s| *s != 0)`
fails); the alternation instead matches only the `0,10` prefix via the
default-step branch, leaving `,0` unconsumed and the step equal to 1 — so
no `Gen` with step 0 is ever produced from such a token. -/
theorem c5_zero_step_token_not_accepted :
    parse_range_in_gen "0,10,0".data = some (",0".data, ⟨0, 10, false, 1⟩) := by
  decide

/-- C5 (amended): every successful parse of the gen range sub-grammar
yields a non-zero step — the grammar itself rejects a step of 0 through
`verify` and default steps of 1 (the generator, if handed `step = 0`
directly, does repeat the start value, as the second conjunct shows on
`start = 0`). -/
theorem c5_grammar_rejects_zero_step :
    (∀ (s r : List Char) (g : GenArgs),
      parse_range_in_gen s = some (r, g) → g.step ≠ 0) ∧
    rangeToIterList 5 0 1 0 = [0, 0, 0, 0, 0] := by
  constructor
  · intro s r g h
    simp only [parse_range_in_gen, Option.orElse_eq_some, HOrElse.hOrElse,
      OrElse.orElse, Option.orElse_eq_some'] at h
    rcases h with h | ⟨-, h | ⟨-, h | ⟨-, h | ⟨-, h | ⟨-, h⟩⟩⟩⟩⟩
    · exact genBranch1_step_ne_zero _ _ _ h
    · exact genBranch2_step_ne_zero _ _ _ h
    · exact genBranch3_step_ne_zero _ _ _ h
    · exact genBranch4_step_ne_zero _ _ _ h
    · exact genBranch5_step_ne_zero _ _ _ h
    · exact genBranch6_step_ne_zero _ _ _ h
  · decide

/-- C5 witness: the amended statement applied at the concrete token
`1,2,3`, whose parse succeeds with step 3. -/
theorem c5_witness : ((⟨1, 2, false, 3⟩ : GenArgs).step ≠ 0) :=
  c5_grammar_rejects_zero_step.1 "1,2,3".data "".data ⟨1, 2, false, 3⟩ (by decide)

end Rpipe
